import Mathlib

/-!
Verification of the event-registration portal's data-model core
(the `Event` and `User` collection stores in `models/event.js` and
`models/user.js`).

Modelling conventions (shallow embedding):
* Each JS store instance is a structure holding the in-memory record list and
  the `nextId` counter.  The backing JSON file is modelled as the record list
  it deserialises to (`JSON.stringify`/`JSON.parse` of these records is a
  round-trip performed by the Node runtime, outside this repository).
* JS numbers holding ids, capacities and counters are modelled as `Int`
  (`parseInt` results); the decimal `price` (`parseFloat`) is modelled as
  `Rat` — no claim performs any arithmetic on it.
* ISO timestamp strings produced by `new Date().toISOString()` are passed in
  as an explicit `now : String` argument.
* A JS `throw` is modelled with `Except`: every mutating operation returns the
  thrown error (or the result) together with the store as it is at that
  moment, so "state unchanged on failure" is a real theorem, not a typing
  artifact.
* `Array.prototype.findIndex` followed by an assignment (resp. `splice`) at
  the found index is transcribed as a first-match replacement (resp. removal)
  recursion over the list, which is exactly its semantics.
-/

deriving instance DecidableEq for Except

/-- The caller-visible failures thrown by the event store.  The constructor
names the message: `eventNotFound` = "Event not found" (NotFound),
`eventFull` = "Event is full" (Conflict), `alreadyRegistered` = "User already
registered for this event" (Conflict), `notRegistered` = "User not registered
for this event" (Conflict). -/
inductive EvErr where
  | eventNotFound
  | eventFull
  | alreadyRegistered
  | notRegistered
  deriving DecidableEq, Repr

/-- Spec taxonomy: a NotFound condition. -/
def EvErr.isNotFound : EvErr → Bool
  | .eventNotFound => true
  | _ => false

/-- Spec taxonomy: a Conflict condition. -/
def EvErr.isConflict : EvErr → Bool
  | .eventNotFound => false
  | _ => true

/-- An event record, with the exact field list built by `Event.create`. -/
structure Event where
  id : Int
  title : String
  category : String
  date : String
  time : String
  location : String
  description : String
  capacity : Int
  price : Rat
  organizerId : Int
  organizerName : String
  registrations : Int
  registeredUsers : List Int
  createdAt : String
  updatedAt : String
  deriving DecidableEq, Repr

/-- The `Event` store instance: in-memory collection plus the id counter. -/
structure EventStore where
  events : List Event
  nextId : Int
  deriving DecidableEq, Repr

/-- The `eventData` argument of `Event.create`, after the route layer's
parsing (`parseInt(eventData.capacity)`, `parseFloat(eventData.price)`).
`registrations`/`registeredUsers` are `none` when absent, matching the
`eventData.registrations || 0` and `eventData.registeredUsers || []`
defaulting in the source. -/
structure EventData where
  title : String
  category : String
  date : String
  time : String
  location : String
  description : String
  capacity : Int
  price : Rat
  organizerId : Int
  organizerName : String
  registrations : Option Int
  registeredUsers : Option (List Int)

/-- A partial-update object passed to `Event.update` (the JS object spread
`{...old, ...updateData}`): a present field overrides the stored one.
`updatedAt` is absent because `update` always overwrites it with the current
timestamp after the spread. -/
structure EventPatch where
  id : Option Int := none
  title : Option String := none
  category : Option String := none
  date : Option String := none
  time : Option String := none
  location : Option String := none
  description : Option String := none
  capacity : Option Int := none
  price : Option Rat := none
  organizerId : Option Int := none
  organizerName : Option String := none
  registrations : Option Int := none
  registeredUsers : Option (List Int) := none
  createdAt : Option String := none

/-- The object spread `{...e, ...p}`. -/
def applyPatch (e : Event) (p : EventPatch) : Event :=
  { id := p.id.getD e.id
    title := p.title.getD e.title
    category := p.category.getD e.category
    date := p.date.getD e.date
    time := p.time.getD e.time
    location := p.location.getD e.location
    description := p.description.getD e.description
    capacity := p.capacity.getD e.capacity
    price := p.price.getD e.price
    organizerId := p.organizerId.getD e.organizerId
    organizerName := p.organizerName.getD e.organizerName
    registrations := p.registrations.getD e.registrations
    registeredUsers := p.registeredUsers.getD e.registeredUsers
    createdAt := p.createdAt.getD e.createdAt
    updatedAt := e.updatedAt }

/-- Source `Event.create`: builds the new record with id `nextId`, post-increments
`nextId`, and pushes the record onto the collection. -/
def EventStore.create (s : EventStore) (d : EventData) (now : String) :
    Event × EventStore :=
  let newEvent : Event :=
    { id := s.nextId
      title := d.title
      category := d.category
      date := d.date
      time := d.time
      location := d.location
      description := d.description
      capacity := d.capacity
      price := d.price
      organizerId := d.organizerId
      organizerName := d.organizerName
      registrations := d.registrations.getD 0
      registeredUsers := d.registeredUsers.getD []
      createdAt := now
      updatedAt := now }
  (newEvent, { s with events := s.events ++ [newEvent], nextId := s.nextId + 1 })

/-- Source `Event.findById`: `this.events.find(event => event.id === parseInt(id))`. -/
def EventStore.findById (s : EventStore) (id : Int) : Option Event :=
  s.events.find? (fun e => e.id == id)

/-- Source `findIndex` followed by replacing the found slot with
`{...old, ...updateData, updatedAt: now}`; `none` when `findIndex` gives -1.
Returns the new list and the new record (the value `update` returns). -/
def updateFirst (id : Int) (p : EventPatch) (now : String) :
    List Event → Option (List Event × Event)
  | [] => none
  | e :: es =>
    if e.id == id then
      let e2 := { applyPatch e p with updatedAt := now }
      some (e2 :: es, e2)
    else
      match updateFirst id p now es with
      | none => none
      | some (es2, ev) => some (e :: es2, ev)

/-- Source `Event.update`: throws "Event not found" when the id is absent, otherwise
merges the fields, stamps `updatedAt`, persists, and returns the new record. -/
def EventStore.update (s : EventStore) (id : Int) (p : EventPatch)
    (now : String) : Except EvErr Event × EventStore :=
  match updateFirst id p now s.events with
  | none => (.error .eventNotFound, s)
  | some (es2, ev) => (.ok ev, { s with events := es2 })

/-- Source `findIndex` followed by `splice(eventIndex, 1)`: removes the first record
with the given id; `none` when `findIndex` gives -1. -/
def removeFirst (id : Int) : List Event → Option (List Event)
  | [] => none
  | e :: es =>
    if e.id == id then some es
    else
      match removeFirst id es with
      | none => none
      | some es2 => some (e :: es2)

/-- Source `Event.delete`: throws "Event not found" when the id is absent, otherwise
splices the record out and persists. -/
def EventStore.delete (s : EventStore) (id : Int) :
    Except EvErr Unit × EventStore :=
  match removeFirst id s.events with
  | none => (.error .eventNotFound, s)
  | some es2 => (.ok (), { s with events := es2 })

/-- Source `Event.registerUser`: not-found, capacity and duplicate checks in source
order, then appends the user id, increments the counter, and persists the two
changed fields through `update`.  (In the source the found record is mutated
in place and `update` then merges the same two values into the same record;
the composite effect is the single field replacement modelled here.) -/
def EventStore.registerUser (s : EventStore) (eventId userId : Int)
    (now : String) : Except EvErr Unit × EventStore :=
  match s.findById eventId with
  | none => (.error .eventNotFound, s)
  | some ev =>
    if ev.registrations ≥ ev.capacity then (.error .eventFull, s)
    else if ev.registeredUsers.contains userId then
      (.error .alreadyRegistered, s)
    else
      match s.update eventId
          { registeredUsers := some (ev.registeredUsers ++ [userId])
            registrations := some (ev.registrations + 1) } now with
      | (.ok _, s2) => (.ok (), s2)
      | (.error e, s2) => (.error e, s2)

/-- Source `Event.unregisterUser`: not-found and not-registered checks in source
order, then removes the user id (`filter(id => id !== userId)`), clamps the
decremented counter at zero (`Math.max(0, registrations - 1)`), and persists
the two changed fields through `update`. -/
def EventStore.unregisterUser (s : EventStore) (eventId userId : Int)
    (now : String) : Except EvErr Unit × EventStore :=
  match s.findById eventId with
  | none => (.error .eventNotFound, s)
  | some ev =>
    if ev.registeredUsers.contains userId then
      match s.update eventId
          { registeredUsers := some (ev.registeredUsers.filter (fun x => x != userId))
            registrations := some (max 0 (ev.registrations - 1)) } now with
      | (.ok _, s2) => (.ok (), s2)
      | (.error e, s2) => (.error e, s2)
    else (.error .notRegistered, s)

/-! Queries: search and findAll. -/

/-- Tests whether `needle` is a prefix of `hay` (character lists). -/
def leadsWith : List Char → List Char → Bool
  | [], _ => true
  | _ :: _, [] => false
  | a :: as, b :: bs => a == b && leadsWith as bs

/-- Tests whether `needle` occurs as a contiguous substring of the character list. -/
def occursIn (needle : List Char) : List Char → Bool
  | [] => leadsWith needle []
  | b :: bs => leadsWith needle (b :: bs) || occursIn needle bs

/-- Source `hay.includes(needle)`: substring containment. -/
def strIncludes (hay needle : String) : Bool :=
  occursIn needle.data hay.data

/-- Source `.toLowerCase()`: the per-character lowercase mapping (the same map
`String.toLower` performs, written charwise so the kernel can evaluate
it). -/
def lowerStr (s : String) : String :=
  ⟨s.data.map Char.toLower⟩

/-- Source `Event.search`: case-insensitive substring match of the query across
title, description, location and category. -/
def EventStore.search (s : EventStore) (query : String) : List Event :=
  let searchTerm := lowerStr query
  s.events.filter (fun e =>
    strIncludes (lowerStr e.title) searchTerm ||
    strIncludes (lowerStr e.description) searchTerm ||
    strIncludes (lowerStr e.location) searchTerm ||
    strIncludes (lowerStr e.category) searchTerm)

/-- The spec's description of a search hit: the lowercased term is a
substring of the lowercased title, description, location or category. -/
def specSearchHit (e : Event) (query : String) : Bool :=
  strIncludes (lowerStr e.title) (lowerStr query) ||
  strIncludes (lowerStr e.description) (lowerStr query) ||
  strIncludes (lowerStr e.location) (lowerStr query) ||
  strIncludes (lowerStr e.category) (lowerStr query)

/-- One decimal digit. -/
def digitVal (c : Char) : Option Nat :=
  if c.isDigit then some (c.toNat - 48) else none

def isLeapYear (y : Nat) : Bool :=
  y % 4 == 0 && (y % 100 != 0 || y % 400 == 0)

def daysInMonth (y m : Nat) : Nat :=
  if m == 2 then (if isLeapYear y then 29 else 28)
  else if m == 4 || m == 6 || m == 9 || m == 11 then 30
  else 31

/-- Parse a `YYYY-MM-DD` date string into the packed key `yyyymmdd`;
`none` when the string is not a calendar date (so `new Date(...)` would be
an Invalid Date).  `new Date` on valid ISO strings is strictly monotone in
the lexicographic (date, time) order, so an order-isomorphic integer key is
a faithful model of the start instant: every use in the source is a
comparison (`<`, `>`, or the sort comparator's subtraction sign). -/
def parseDate (s : String) : Option Nat :=
  match s.data with
  | [y1, y2, y3, y4, '-', m1, m2, '-', d1, d2] => do
    let a ← digitVal y1
    let b ← digitVal y2
    let c ← digitVal y3
    let d ← digitVal y4
    let e ← digitVal m1
    let f ← digitVal m2
    let g ← digitVal d1
    let h ← digitVal d2
    let y := ((a * 10 + b) * 10 + c) * 10 + d
    let m := e * 10 + f
    let dd := g * 10 + h
    if 1 ≤ m && m ≤ 12 && 1 ≤ dd && dd ≤ daysInMonth y m then
      some ((y * 100 + m) * 100 + dd)
    else none
  | _ => none

/-- Parse an `HH:MM` time string into the packed key `hhmm`. -/
def parseTime (s : String) : Option Nat :=
  match s.data with
  | [h1, h2, ':', m1, m2] => do
    let a ← digitVal h1
    let b ← digitVal h2
    let c ← digitVal m1
    let d ← digitVal m2
    let hh := a * 10 + b
    let mm := c * 10 + d
    if hh ≤ 23 && mm ≤ 59 then some (hh * 100 + mm) else none
  | _ => none

/-- The start instant `new Date(event.date + 'T' + event.time)` as a packed
comparison key; `none` models an Invalid Date (NaN timestamp). -/
def evKey (e : Event) : Option Nat := do
  let d ← parseDate e.date
  let t ← parseTime e.time
  some (d * 10000 + t)

/-- The sort comparator `(a, b) => new Date(a...) - new Date(b...)` read as
"a stays at or before b": true when the difference is not positive.  When
either date is invalid the difference is NaN, which the sort treats as 0
(no reorder), hence `true`. -/
def jsDateLe (a b : Event) : Bool :=
  match evKey a, evKey b with
  | some x, some y => decide (x ≤ y)
  | _, _ => true

/-- Insert into a sorted list, before the first element it compares
at-or-before: the insertion step of a stable sort. -/
def insertSorted (le : Event → Event → Bool) (a : Event) :
    List Event → List Event
  | [] => [a]
  | b :: bs => if le a b then a :: b :: bs else b :: insertSorted le a bs

/-- A stable sort by the comparator, modelling `Array.prototype.sort`
(required stable since ES2019). -/
def sortEvents (le : Event → Event → Bool) : List Event → List Event
  | [] => []
  | a :: as => insertSorted le a (sortEvents le as)

/-- Source `Event.findAll`: sorts by the date+time comparator and annotates each
event with the derived `isUpcoming = event start > now` boolean.  `now` is
the `new Date()` wall-clock instant, under the same key encoding; an invalid
start date gives `isUpcoming = false` (`NaN > now` is false). -/
def EventStore.findAll (s : EventStore) (now : Nat) : List (Event × Bool) :=
  (sortEvents jsDateLe s.events).map (fun e =>
    (e, match evKey e with
        | some k => decide (now < k)
        | none => false))

/-! Persistence: `saveEvents` / `loadEvents`. -/

/-- Source `Event.saveEvents`: the backing file afterwards holds exactly the
in-memory collection (`JSON.stringify` of the record array; the JSON
round-trip itself is Node-runtime behaviour, modelled as the identity). -/
def saveEvents (s : EventStore) : List Event := s.events

/-- Source `Math.max(x, ...xs)`. -/
def jsMax (x : Int) (xs : List Int) : Int := xs.foldl max x

/-- A fresh store that has run the constructor (`nextId = 1`) and then
`loadEvents` on a file holding the given collection: when the collection is
non-empty, `nextId` becomes `Math.max(...ids) + 1`; otherwise the
constructor's `1` stands. -/
def loadEvents (file : List Event) : EventStore :=
  { events := file
    nextId :=
      match file.map (fun e => e.id) with
      | [] => 1
      | x :: xs => jsMax x xs + 1 }

/-! The `User` store. -/

/-- The caller-visible failure thrown by the user store's record
operations: "User not found" (NotFound). -/
inductive UserErr where
  | userNotFound
  deriving DecidableEq, Repr

/-- A user record, with the exact field list built by `User.create`. -/
structure User where
  id : Int
  name : String
  email : String
  password : String
  registeredEvents : List Int
  createdAt : String
  updatedAt : String
  deriving DecidableEq, Repr

/-- The `User` store instance. -/
structure UserStore where
  users : List User
  nextId : Int
  deriving DecidableEq, Repr

/-- The `userData` argument of `User.create`. -/
structure UserData where
  name : String
  email : String
  password : String

/-- A partial-update object passed to `User.update` (object spread);
`updatedAt` is always overwritten with the current timestamp after the
spread. -/
structure UserPatch where
  id : Option Int := none
  name : Option String := none
  email : Option String := none
  password : Option String := none
  registeredEvents : Option (List Int) := none
  createdAt : Option String := none

/-- The object spread `{...u, ...p}`. -/
def applyUserPatch (u : User) (p : UserPatch) : User :=
  { id := p.id.getD u.id
    name := p.name.getD u.name
    email := p.email.getD u.email
    password := p.password.getD u.password
    registeredEvents := p.registeredEvents.getD u.registeredEvents
    createdAt := p.createdAt.getD u.createdAt
    updatedAt := u.updatedAt }

/-- Source `User.create`: id `nextId` (post-incremented), lowercase-normalised
email, empty registered-events list.  (The source returns the record with
the password field stripped; the claims only use the id, so the full record
is returned here.) -/
def UserStore.create (s : UserStore) (d : UserData) (now : String) :
    User × UserStore :=
  let newUser : User :=
    { id := s.nextId
      name := d.name
      email := lowerStr d.email
      password := d.password
      registeredEvents := []
      createdAt := now
      updatedAt := now }
  (newUser, { s with users := s.users ++ [newUser], nextId := s.nextId + 1 })

/-- Source `User.findById`. -/
def UserStore.findById (s : UserStore) (id : Int) : Option User :=
  s.users.find? (fun u => u.id == id)

/-- Source `findIndex` plus in-place merge, as for events. -/
def updateUserFirst (id : Int) (p : UserPatch) (now : String) :
    List User → Option (List User × User)
  | [] => none
  | u :: us =>
    if u.id == id then
      let u2 := { applyUserPatch u p with updatedAt := now }
      some (u2 :: us, u2)
    else
      match updateUserFirst id p now us with
      | none => none
      | some (us2, u2) => some (u :: us2, u2)

/-- Source `User.update`: throws "User not found" when the id is absent, otherwise
merges the fields, stamps `updatedAt`, and persists. -/
def UserStore.update (s : UserStore) (id : Int) (p : UserPatch)
    (now : String) : Except UserErr User × UserStore :=
  match updateUserFirst id p now s.users with
  | none => (.error .userNotFound, s)
  | some (us2, u2) => (.ok u2, { s with users := us2 })

/-- Source `User.addRegisteredEvent`: throws when the user is absent; when the
event id is already in `registeredEvents` it returns without touching
anything; otherwise it appends the id and persists through `update`. -/
def UserStore.addRegisteredEvent (s : UserStore) (userId eventId : Int)
    (now : String) : Except UserErr Unit × UserStore :=
  match s.findById userId with
  | none => (.error .userNotFound, s)
  | some u =>
    if u.registeredEvents.contains eventId then (.ok (), s)
    else
      match s.update userId
          { registeredEvents := some (u.registeredEvents ++ [eventId]) } now with
      | (.ok _, s2) => (.ok (), s2)
      | (.error e, s2) => (.error e, s2)

/-- Source `User.validatePassword(userId, password)`.  `bc` models
`bcrypt.compare(plaintext, hash)`, an external collaborator that either
resolves with a boolean or rejects; the source's catch block maps a missing
user to `false` directly and any rejection to `false`. -/
def UserStore.validatePassword (bc : String → String → Except String Bool)
    (s : UserStore) (userId : Int) (password : String) : Bool :=
  match s.findById userId with
  | none => false
  | some u =>
    match bc password u.password with
    | .ok b => b
    | .error _ => false

/-! Bridging lemmas: `find?` against the first-match update/removal. -/

/-- Consistency invariant: `registrations` agrees with the length of `registeredUsers`. -/
def regConsistent (e : Event) : Prop :=
  e.registrations = (e.registeredUsers.length : Int)

instance (e : Event) : Decidable (regConsistent e) := by
  unfold regConsistent; infer_instance

theorem updateFirst_of_find? {id : Int} {p : EventPatch} (now : String) :
    ∀ {l : List Event} {ev : Event},
    l.find? (fun e => e.id == id) = some ev →
    ∃ l2, updateFirst id p now l =
      some (l2, { applyPatch ev p with updatedAt := now }) := by
  intro l
  induction l with
  | nil => intro ev h; simp at h
  | cons e es ih =>
    intro ev h
    by_cases hid : (e.id == id) = true
    · simp only [List.find?_cons, hid, Option.some.injEq] at h
      subst h
      refine ⟨{ applyPatch e p with updatedAt := now } :: es, ?_⟩
      simp [updateFirst, hid]
    · simp only [List.find?_cons, Bool.not_eq_true] at h
      rw [Bool.not_eq_true] at hid
      rw [hid] at h
      obtain ⟨l2, hl2⟩ := ih h
      refine ⟨e :: l2, ?_⟩
      simp [updateFirst, hid, hl2]

theorem mem_updateFirst {id : Int} {p : EventPatch} {now : String} :
    ∀ {l l2 : List Event} {e2 : Event},
    updateFirst id p now l = some (l2, e2) →
    ∀ x ∈ l2, x = e2 ∨ x ∈ l := by
  intro l
  induction l with
  | nil => intro l2 e2 h; simp [updateFirst] at h
  | cons e es ih =>
    intro l2 e2 h x hx
    by_cases hid : (e.id == id) = true
    · simp only [updateFirst, hid, if_true, Option.some.injEq, Prod.mk.injEq] at h
      obtain ⟨h1, h2⟩ := h
      subst h1
      rcases List.mem_cons.1 hx with hx | hx
      · exact Or.inl (hx.trans h2)
      · exact Or.inr (List.mem_cons_of_mem _ hx)
    · simp only [updateFirst] at h
      rw [if_neg hid] at h
      split at h
      · cases h
      · next es2 ev2 heq =>
        simp only [Option.some.injEq, Prod.mk.injEq] at h
        obtain ⟨h3, h4⟩ := h
        subst h3
        subst h4
        rcases List.mem_cons.1 hx with hx | hx
        · exact Or.inr (by simp [hx])
        · rcases ih heq x hx with hx2 | hx2
          · exact Or.inl hx2
          · exact Or.inr (List.mem_cons_of_mem _ hx2)

theorem find?_updateFirst {id : Int} {p : EventPatch} {now : String}
    (hp : p.id = none) :
    ∀ {l l2 : List Event} {e2 : Event},
    updateFirst id p now l = some (l2, e2) →
    l2.find? (fun e => e.id == id) = some e2 := by
  intro l
  induction l with
  | nil => intro l2 e2 h; simp [updateFirst] at h
  | cons e es ih =>
    intro l2 e2 h
    by_cases hid : (e.id == id) = true
    · simp only [updateFirst, hid, if_true, Option.some.injEq, Prod.mk.injEq] at h
      obtain ⟨h1, h2⟩ := h
      subst h1
      subst h2
      have hid2 : (({ applyPatch e p with updatedAt := now } : Event).id == id) = true := by
        simp only [applyPatch, hp, Option.getD_none]
        exact hid
      rw [List.find?_cons, hid2]
    · simp only [updateFirst] at h
      rw [if_neg hid] at h
      split at h
      · cases h
      · next es2 ev2 heq =>
        simp only [Option.some.injEq, Prod.mk.injEq] at h
        obtain ⟨h3, h4⟩ := h
        subst h3
        subst h4
        rw [List.find?_cons]
        rw [Bool.not_eq_true] at hid
        rw [hid]
        exact ih heq

/-! Lemmas about the stable sort and the comparison keys. -/

/-- Relation saying a starts no later than b, stated on the parsed keys. -/
def keyLe (a b : Event) : Prop :=
  ∀ ka kb, evKey a = some ka → evKey b = some kb → ka ≤ kb

theorem keyLe_of_jsDateLe {a b : Event} (h : jsDateLe a b = true) : keyLe a b := by
  intro ka kb hka hkb
  unfold jsDateLe at h
  rw [hka, hkb] at h
  simpa using h

theorem keyLe_of_not_jsDateLe {a b : Event} (ha : (evKey a).isSome)
    (hb : (evKey b).isSome) (h : ¬ jsDateLe a b = true) : keyLe b a := by
  obtain ⟨ka, hka⟩ := Option.isSome_iff_exists.1 ha
  obtain ⟨kb, hkb⟩ := Option.isSome_iff_exists.1 hb
  intro kb2 ka2 hkb2 hka2
  rw [hkb] at hkb2
  rw [hka] at hka2
  cases hkb2
  cases hka2
  unfold jsDateLe at h
  rw [hka, hkb] at h
  simp only [decide_eq_true_eq] at h
  omega

theorem keyLe_trans {a b c : Event} (hb : (evKey b).isSome)
    (h1 : keyLe a b) (h2 : keyLe b c) : keyLe a c := by
  obtain ⟨kb, hkb⟩ := Option.isSome_iff_exists.1 hb
  intro ka kc hka hkc
  exact le_trans (h1 ka kb hka hkb) (h2 kb kc hkb hkc)

theorem mem_insertSorted {le : Event → Event → Bool} {a : Event} :
    ∀ {l : List Event} {x : Event},
    x ∈ insertSorted le a l ↔ x = a ∨ x ∈ l := by
  intro l
  induction l with
  | nil => intro x; simp [insertSorted]
  | cons b bs ih =>
    intro x
    unfold insertSorted
    by_cases hle : le a b = true
    · simp [hle]
    · simp only [if_neg hle, List.mem_cons, ih]
      tauto

theorem insertSorted_perm {le : Event → Event → Bool} {a : Event} :
    ∀ {l : List Event}, (insertSorted le a l).Perm (a :: l) := by
  intro l
  induction l with
  | nil => simp [insertSorted]
  | cons b bs ih =>
    unfold insertSorted
    by_cases hle : le a b = true
    · simp [hle]
    · rw [if_neg hle]
      exact (ih.cons b).trans (List.Perm.swap a b bs)

theorem sortEvents_perm {le : Event → Event → Bool} :
    ∀ l : List Event, (sortEvents le l).Perm l := by
  intro l
  induction l with
  | nil => simp [sortEvents]
  | cons a as ih =>
    unfold sortEvents
    exact insertSorted_perm.trans (ih.cons a)

theorem pairwise_insertSorted {a : Event} {l : List Event}
    (ha : (evKey a).isSome) (hl : ∀ x ∈ l, (evKey x).isSome)
    (h : l.Pairwise keyLe) : (insertSorted jsDateLe a l).Pairwise keyLe := by
  induction l with
  | nil => simp [insertSorted]
  | cons b bs ih =>
    unfold insertSorted
    by_cases hle : jsDateLe a b = true
    · rw [if_pos hle]
      refine List.Pairwise.cons ?_ h
      intro x hx
      rcases List.mem_cons.1 hx with hx | hx
      · subst hx; exact keyLe_of_jsDateLe hle
      · have hab := keyLe_of_jsDateLe hle
        have hbx := (List.pairwise_cons.1 h).1 x hx
        exact keyLe_trans (hl b (by simp)) hab hbx
    · rw [if_neg hle]
      have hba := keyLe_of_not_jsDateLe ha (hl b (by simp)) hle
      refine List.Pairwise.cons ?_ ?_
      · intro x hx
        rcases mem_insertSorted.1 hx with hx | hx
        · subst hx; exact hba
        · exact (List.pairwise_cons.1 h).1 x hx
      · exact ih (fun x hx => hl x (List.mem_cons_of_mem _ hx))
          (List.pairwise_cons.1 h).2

theorem pairwise_sortEvents {l : List Event}
    (hl : ∀ x ∈ l, (evKey x).isSome) :
    (sortEvents jsDateLe l).Pairwise keyLe := by
  induction l with
  | nil => simp [sortEvents]
  | cons a as ih =>
    unfold sortEvents
    refine pairwise_insertSorted (hl a (by simp)) ?_ ?_
    · intro x hx
      exact hl x (List.mem_cons_of_mem _ ((sortEvents_perm as).mem_iff.1 hx))
    · exact ih (fun x hx => hl x (List.mem_cons_of_mem _ hx))

/-! Lemmas about `Math.max` over a non-empty id list. -/

theorem le_jsMax : ∀ (xs : List Int) (x : Int), ∀ y ∈ x :: xs, y ≤ jsMax x xs := by
  intro xs
  induction xs with
  | nil => intro x y hy; simp at hy; simp [jsMax, hy]
  | cons a as ih =>
    intro x y hy
    have : jsMax x (a :: as) = jsMax (max x a) as := by simp [jsMax]
    rw [this]
    rcases List.mem_cons.1 hy with hy | hy
    · subst hy
      exact le_trans (le_max_left y a) (ih (max y a) _ (by simp))
    · rcases List.mem_cons.1 hy with hy | hy
      · subst hy
        exact le_trans (le_max_right x y) (ih (max x y) _ (by simp))
      · exact ih (max x a) y (by simp [hy])

theorem jsMax_mem : ∀ (xs : List Int) (x : Int), jsMax x xs ∈ x :: xs := by
  intro xs
  induction xs with
  | nil => simp [jsMax]
  | cons a as ih =>
    intro x
    have h1 : jsMax x (a :: as) = jsMax (max x a) as := by simp [jsMax]
    rw [h1]
    rcases List.mem_cons.1 (ih (max x a)) with h2 | h2
    · rw [h2]
      rcases max_choice x a with hc | hc <;> rw [hc] <;> simp
    · simp [h2]

/-! Bridging lemmas for the user store. -/

theorem updateUserFirst_of_find? {id : Int} {p : UserPatch} (now : String) :
    ∀ {l : List User} {u : User},
    l.find? (fun x => x.id == id) = some u →
    ∃ l2, updateUserFirst id p now l =
      some (l2, { applyUserPatch u p with updatedAt := now }) := by
  intro l
  induction l with
  | nil => intro u h; simp at h
  | cons e es ih =>
    intro u h
    by_cases hid : (e.id == id) = true
    · simp only [List.find?_cons, hid, Option.some.injEq] at h
      subst h
      refine ⟨{ applyUserPatch e p with updatedAt := now } :: es, ?_⟩
      simp [updateUserFirst, hid]
    · simp only [List.find?_cons, Bool.not_eq_true] at h
      rw [Bool.not_eq_true] at hid
      rw [hid] at h
      obtain ⟨l2, hl2⟩ := ih h
      refine ⟨e :: l2, ?_⟩
      simp [updateUserFirst, hid, hl2]

theorem find?_updateUserFirst {id : Int} {p : UserPatch} {now : String}
    (hp : p.id = none) :
    ∀ {l l2 : List User} {u2 : User},
    updateUserFirst id p now l = some (l2, u2) →
    l2.find? (fun x => x.id == id) = some u2 := by
  intro l
  induction l with
  | nil => intro l2 u2 h; simp [updateUserFirst] at h
  | cons e es ih =>
    intro l2 u2 h
    by_cases hid : (e.id == id) = true
    · simp only [updateUserFirst, hid, if_true, Option.some.injEq,
        Prod.mk.injEq] at h
      obtain ⟨h1, h2⟩ := h
      subst h1
      subst h2
      have hid2 : (({ applyUserPatch e p with updatedAt := now } : User).id == id) = true := by
        simp only [applyUserPatch, hp, Option.getD_none]
        exact hid
      rw [List.find?_cons, hid2]
    · simp only [updateUserFirst] at h
      rw [if_neg hid] at h
      split at h
      · cases h
      · next es2 ev2 heq =>
        simp only [Option.some.injEq, Prod.mk.injEq] at h
        obtain ⟨h3, h4⟩ := h
        subst h3
        subst h4
        rw [List.find?_cons]
        rw [Bool.not_eq_true] at hid
        rw [hid]
        exact ih heq

/-! Operation-level helper lemmas. -/

theorem registerUser_ok_state {s : EventStore} {eventId userId : Int}
    {now : String} {ev : Event}
    (hf : s.findById eventId = some ev)
    (hcap : ¬ ev.registrations ≥ ev.capacity)
    (hdup : ¬ ev.registeredUsers.contains userId = true) :
    ∃ l2,
      updateFirst eventId
        { registeredUsers := some (ev.registeredUsers ++ [userId])
          registrations := some (ev.registrations + 1) } now s.events
        = some (l2, { ev with registeredUsers := ev.registeredUsers ++ [userId],
                              registrations := ev.registrations + 1,
                              updatedAt := now })
      ∧ EventStore.registerUser s eventId userId now =
          (.ok (), { s with events := l2 }) := by
  have hf2 : s.events.find? (fun e => e.id == eventId) = some ev := hf
  have hnmem : userId ∉ ev.registeredUsers := by simpa using hdup
  obtain ⟨l2, hl2⟩ := updateFirst_of_find?
    (p := { registeredUsers := some (ev.registeredUsers ++ [userId])
            registrations := some (ev.registrations + 1) })
    now hf2
  refine ⟨l2, hl2, ?_⟩
  simp [EventStore.registerUser, EventStore.update, hf, hcap, hnmem, hl2]

theorem registerUser_ok_cases {s : EventStore} {eventId userId : Int}
    {now : String}
    (h : (EventStore.registerUser s eventId userId now).1 = .ok ()) :
    ∃ ev, s.findById eventId = some ev
      ∧ ¬ ev.registrations ≥ ev.capacity
      ∧ ¬ ev.registeredUsers.contains userId = true
      ∧ (EventStore.registerUser s eventId userId now).2.findById eventId =
          some { ev with registeredUsers := ev.registeredUsers ++ [userId],
                         registrations := ev.registrations + 1,
                         updatedAt := now } := by
  cases hf : s.findById eventId with
  | none => simp [EventStore.registerUser, hf] at h
  | some ev =>
    by_cases hcap : ev.registrations ≥ ev.capacity
    · simp [EventStore.registerUser, hf, hcap] at h
    · by_cases hdup : ev.registeredUsers.contains userId = true
      · have hmem : userId ∈ ev.registeredUsers := by simpa using hdup
        simp [EventStore.registerUser, hf, hcap, hmem] at h
      · obtain ⟨l2, hl2, hstate⟩ := registerUser_ok_state hf hcap hdup
        refine ⟨ev, rfl, hcap, hdup, ?_⟩
        rw [hstate]
        exact find?_updateFirst rfl hl2

theorem unregisterUser_ok_cases {s : EventStore} {eventId userId : Int}
    {now : String} {ev : Event}
    (hf : s.findById eventId = some ev)
    (hreg : ev.registeredUsers.contains userId = true) :
    ∃ l2,
      updateFirst eventId
        { registeredUsers := some (ev.registeredUsers.filter (fun x => x != userId))
          registrations := some (max 0 (ev.registrations - 1)) } now s.events
        = some (l2, { ev with
                      registeredUsers := ev.registeredUsers.filter (fun x => x != userId),
                      registrations := max 0 (ev.registrations - 1),
                      updatedAt := now })
      ∧ EventStore.unregisterUser s eventId userId now =
          (.ok (), { s with events := l2 }) := by
  have hf2 : s.events.find? (fun e => e.id == eventId) = some ev := hf
  have hmem : userId ∈ ev.registeredUsers := by simpa using hreg
  obtain ⟨l2, hl2⟩ := updateFirst_of_find?
    (p := { registeredUsers := some (ev.registeredUsers.filter (fun x => x != userId))
            registrations := some (max 0 (ev.registrations - 1)) })
    now hf2
  refine ⟨l2, hl2, ?_⟩
  simp [EventStore.unregisterUser, EventStore.update, hf, hmem, hl2]

/-- Concrete records used by witnesses and counterexamples. -/
def evFull3 : Event :=
  { id := 1, title := "Tech Meetup", category := "Tech", date := "2030-05-01",
    time := "18:00", location := "Hall A", description := "Monthly meetup",
    capacity := 3, price := 0, organizerId := 9, organizerName := "Org",
    registrations := 3, registeredUsers := [11, 12, 13],
    createdAt := "c", updatedAt := "c" }

def evOpen5 : Event :=
  { id := 1, title := "Art Fair", category := "Art", date := "2031-06-02",
    time := "09:30", location := "Hall B", description := "Open fair",
    capacity := 5, price := 10, organizerId := 9, organizerName := "Org",
    registrations := 1, registeredUsers := [4],
    createdAt := "c", updatedAt := "c" }

def evCap1 : Event :=
  { id := 1, title := "Workshop", category := "Edu", date := "2032-03-04",
    time := "11:00", location := "Room 1", description := "Small workshop",
    capacity := 1, price := 0, organizerId := 9, organizerName := "Org",
    registrations := 0, registeredUsers := [],
    createdAt := "c", updatedAt := "c" }

def evBadCount : Event :=
  { id := 1, title := "Gala", category := "Social", date := "2033-07-08",
    time := "20:00", location := "Hall C", description := "Annual gala",
    capacity := 10, price := 25, organizerId := 9, organizerName := "Org",
    registrations := 0, registeredUsers := [7],
    createdAt := "c", updatedAt := "c" }

/-- C10: the event store's mutating operations check every NotFound/Conflict
precondition before touching the collection, so a call that fails with such
an error leaves the in-memory collection (indeed the whole store) exactly as
it was; and every error these operations throw is a NotFound or Conflict
condition. -/
theorem eventStore_failures_atomic :
    ∀ (s : EventStore) (id userId : Int) (p : EventPatch) (now : String)
      (e : EvErr),
    ((EventStore.update s id p now).1 = .error e →
      (EventStore.update s id p now).2 = s)
  ∧ ((EventStore.delete s id).1 = .error e → (EventStore.delete s id).2 = s)
  ∧ ((EventStore.registerUser s id userId now).1 = .error e →
      (EventStore.registerUser s id userId now).2 = s)
  ∧ ((EventStore.unregisterUser s id userId now).1 = .error e →
      (EventStore.unregisterUser s id userId now).2 = s)
  ∧ (e.isNotFound = true ∨ e.isConflict = true) := by
  intro s id userId p now e
  refine ⟨?_, ?_, ?_, ?_, ?_⟩
  · intro h
    cases hu : updateFirst id p now s.events with
    | none => simp [EventStore.update, hu]
    | some pr =>
      obtain ⟨l2, ev2⟩ := pr
      simp [EventStore.update, hu] at h
  · intro h
    cases hu : removeFirst id s.events with
    | none => simp [EventStore.delete, hu]
    | some l2 => simp [EventStore.delete, hu] at h
  · intro h
    cases hf : s.findById id with
    | none => simp [EventStore.registerUser, hf]
    | some ev =>
      by_cases hcap : ev.registrations ≥ ev.capacity
      · simp [EventStore.registerUser, hf, hcap]
      · by_cases hdup : ev.registeredUsers.contains userId = true
        · have hmem : userId ∈ ev.registeredUsers := by simpa using hdup
          simp [EventStore.registerUser, hf, hcap, hmem]
        · have hnmem : userId ∉ ev.registeredUsers := by simpa using hdup
          cases hu : updateFirst id
              { registeredUsers := some (ev.registeredUsers ++ [userId])
                registrations := some (ev.registrations + 1) } now s.events with
          | none =>
            simp [EventStore.registerUser, EventStore.update, hf, hcap, hnmem, hu]
          | some pr =>
            obtain ⟨l2, ev2⟩ := pr
            simp [EventStore.registerUser, EventStore.update, hf, hcap,
              hnmem, hu] at h
  · intro h
    cases hf : s.findById id with
    | none => simp [EventStore.unregisterUser, hf]
    | some ev =>
      by_cases hreg : ev.registeredUsers.contains userId = true
      · have hmem : userId ∈ ev.registeredUsers := by simpa using hreg
        cases hu : updateFirst id
            { registeredUsers := some (ev.registeredUsers.filter (fun x => x != userId))
              registrations := some (max 0 (ev.registrations - 1)) } now s.events with
        | none =>
          simp [EventStore.unregisterUser, EventStore.update, hf, hmem, hu]
        | some pr =>
          obtain ⟨l2, ev2⟩ := pr
          simp [EventStore.unregisterUser, EventStore.update, hf, hmem, hu] at h
      · have hnmem : userId ∉ ev.registeredUsers := by simpa using hreg
        simp [EventStore.unregisterUser, hf, hnmem]
  · cases e <;> simp [EvErr.isNotFound, EvErr.isConflict]

/-- C10 witness: a concrete full event, registering a fresh user fails with
the Conflict and the store is untouched. -/
theorem eventStore_failures_atomic_witness :
    (EventStore.registerUser ⟨[evFull3], 2⟩ 1 7 "t").1 = .error .eventFull
  ∧ (EventStore.registerUser ⟨[evFull3], 2⟩ 1 7 "t").2 = ⟨[evFull3], 2⟩ := by
  constructor
  · decide
  · exact (eventStore_failures_atomic ⟨[evFull3], 2⟩ 1 7
      ({} : EventPatch) "t" .eventFull).2.2.1 (by decide)

/-- C1: `registerUser` fails with the "Event is full" Conflict whenever the
target event's `registrations` counter equals its `capacity`; and after any
`registerUser` call — successful or failed — the target event's counter
still equals the length of its `registeredUsers` list whenever it did before
the call (and likewise store-wide). -/
theorem registerUser_full_conflict_and_consistency :
    ∀ (s : EventStore) (eventId userId : Int) (now : String),
    (∀ ev, s.findById eventId = some ev → ev.registrations = ev.capacity →
      (EventStore.registerUser s eventId userId now).1 = .error .eventFull)
  ∧ (∀ ev, s.findById eventId = some ev → regConsistent ev →
      ∀ ev2, (EventStore.registerUser s eventId userId now).2.findById eventId
        = some ev2 → regConsistent ev2)
  ∧ ((∀ e ∈ s.events, regConsistent e) →
      ∀ e ∈ (EventStore.registerUser s eventId userId now).2.events,
        regConsistent e) := by
  intro s eventId userId now
  refine ⟨?_, ?_, ?_⟩
  · intro ev hf heq
    have hcap : ev.registrations ≥ ev.capacity := le_of_eq heq.symm
    simp [EventStore.registerUser, hf, hcap]
  · intro ev hf hcons ev2 hf2
    by_cases hcap : ev.registrations ≥ ev.capacity
    · simp only [EventStore.registerUser, hf, hcap, if_true] at hf2
      cases hf2
      exact hcons
    · by_cases hdup : ev.registeredUsers.contains userId = true
      · have hmem : userId ∈ ev.registeredUsers := by simpa using hdup
        simp [EventStore.registerUser, hf, hcap, hmem] at hf2
        cases hf2
        exact hcons
      · obtain ⟨l2, hl2, hstate⟩ := registerUser_ok_state hf hcap hdup
        rw [hstate] at hf2
        have hfind := find?_updateFirst
          (p := { registeredUsers := some (ev.registeredUsers ++ [userId])
                  registrations := some (ev.registrations + 1) }) rfl hl2
        have hf2b : some ({ ev with
            registeredUsers := ev.registeredUsers ++ [userId],
            registrations := ev.registrations + 1,
            updatedAt := now } : Event) = some ev2 := by
          rw [← hf2]
          exact hfind.symm
        cases hf2b
        unfold regConsistent at *
        simp only [List.length_append, List.length_cons, List.length_nil]
        push_cast
        omega
  · intro hall e he
    cases hf : s.findById eventId with
    | none =>
      simp only [EventStore.registerUser, hf] at he
      exact hall e he
    | some ev =>
      by_cases hcap : ev.registrations ≥ ev.capacity
      · simp [EventStore.registerUser, hf, hcap] at he
        exact hall e he
      · by_cases hdup : ev.registeredUsers.contains userId = true
        · have hmem : userId ∈ ev.registeredUsers := by simpa using hdup
          simp [EventStore.registerUser, hf, hcap, hmem] at he
          exact hall e he
        · obtain ⟨l2, hl2, hstate⟩ := registerUser_ok_state hf hcap hdup
          rw [hstate] at he
          rcases mem_updateFirst hl2 e he with he2 | he2
          · subst he2
            have hfq : s.events.find? (fun x => x.id == eventId) = some ev := hf
            have hcons := hall ev (List.mem_of_find?_eq_some hfq)
            unfold regConsistent at *
            simp only [List.length_append, List.length_cons, List.length_nil]
            push_cast
            omega
          · exact hall e he2

/-- C1 witness: at a concretely full event the call returns the Conflict,
and on a consistent store the consistency invariant survives a successful
registration. -/
theorem registerUser_full_conflict_and_consistency_witness :
    (EventStore.registerUser ⟨[evFull3], 2⟩ 1 7 "t").1 = .error .eventFull
  ∧ (∀ e ∈ (EventStore.registerUser ⟨[evOpen5], 2⟩ 1 7 "t").2.events,
      regConsistent e) := by
  constructor
  · exact (registerUser_full_conflict_and_consistency ⟨[evFull3], 2⟩ 1 7
      "t").1 evFull3 (by decide) (by decide)
  · exact (registerUser_full_conflict_and_consistency ⟨[evOpen5], 2⟩ 1 7
      "t").2.2 (by decide)

/-- C2 counterexample: on an event with capacity 1 and no registrations, the
first `registerUser` succeeds and fills the event, and the second identical
call fails with the "Event is full" Conflict — not with "User already
registered" — because the source checks capacity before the duplicate
check. -/
theorem registerUser_twice_capacity_one_not_alreadyRegistered :
    (EventStore.registerUser ⟨[evCap1], 2⟩ 1 7 "t1").1 = .ok ()
  ∧ (EventStore.registerUser
      (EventStore.registerUser ⟨[evCap1], 2⟩ 1 7 "t1").2 1 7 "t2").1
      = .error .eventFull
  ∧ (Except.error EvErr.eventFull : Except EvErr Unit) ≠
      .error .alreadyRegistered := by
  refine ⟨by decide, by decide, by decide⟩

/-- C2 (amended): after a successful `registerUser(eventId, userId)`, a
second call with the same arguments fails with a Conflict — "User already
registered for this event" when the event is still below capacity after the
first call, but "Event is full" when the first registration reached
capacity (the capacity check runs first) — and the failed second call
leaves the store, hence the counter and the list, exactly as the first call
left them. -/
theorem registerUser_second_call_conflicts :
    ∀ (s : EventStore) (eventId userId : Int) (now1 now2 : String),
    (EventStore.registerUser s eventId userId now1).1 = .ok () →
    ∀ ev1, (EventStore.registerUser s eventId userId now1).2.findById eventId
      = some ev1 →
    (EventStore.registerUser (EventStore.registerUser s eventId userId now1).2
        eventId userId now2).1
      = .error (if ev1.registrations ≥ ev1.capacity then .eventFull
                else .alreadyRegistered)
    ∧ (EventStore.registerUser (EventStore.registerUser s eventId userId now1).2
        eventId userId now2).2
      = (EventStore.registerUser s eventId userId now1).2 := by
  intro s eventId userId now1 now2 h ev1 hf1
  obtain ⟨ev, hf, hcap, hdup, hpost⟩ := registerUser_ok_cases h
  set s1 := (EventStore.registerUser s eventId userId now1).2 with hs1
  rw [hpost] at hf1
  cases hf1
  by_cases hcap2 :
      ({ ev with registeredUsers := ev.registeredUsers ++ [userId],
                 registrations := ev.registrations + 1,
                 updatedAt := now1 } : Event).registrations ≥
      ({ ev with registeredUsers := ev.registeredUsers ++ [userId],
                 registrations := ev.registrations + 1,
                 updatedAt := now1 } : Event).capacity
  · rw [if_pos hcap2]
    constructor
    · simp [EventStore.registerUser, hpost, hcap2]
    · simp [EventStore.registerUser, hpost, hcap2]
  · rw [if_neg hcap2]
    have hmem : userId ∈
        ({ ev with registeredUsers := ev.registeredUsers ++ [userId],
                   registrations := ev.registrations + 1,
                   updatedAt := now1 } : Event).registeredUsers := by simp
    constructor
    · simp [EventStore.registerUser, hpost, hcap2, hmem]
    · simp [EventStore.registerUser, hpost, hcap2, hmem]

/-- C2 witness: a below-capacity event; the duplicate second call fails with
"User already registered" and changes nothing. -/
theorem registerUser_second_call_conflicts_witness :
    (EventStore.registerUser
      (EventStore.registerUser ⟨[evOpen5], 2⟩ 1 7 "t1").2 1 7 "t2").1
      = .error .alreadyRegistered
  ∧ (EventStore.registerUser
      (EventStore.registerUser ⟨[evOpen5], 2⟩ 1 7 "t1").2 1 7 "t2").2
      = (EventStore.registerUser ⟨[evOpen5], 2⟩ 1 7 "t1").2 := by
  have h := registerUser_second_call_conflicts ⟨[evOpen5], 2⟩ 1 7 "t1" "t2"
    (by decide)
    { evOpen5 with registeredUsers := [4, 7],
                   registrations := 2,
                   updatedAt := "t1" }
    (by decide)
  exact ⟨h.1.trans (by decide), h.2⟩

/-- C3 counterexample: on a (corrupt) state where the counter is 0 but the
user is in the list, unregistering succeeds yet the counter is clamped at 0
instead of being decremented by one to -1. -/
theorem unregisterUser_clamps_instead_of_decrementing :
    (EventStore.unregisterUser ⟨[evBadCount], 2⟩ 1 7 "t").1 = .ok ()
  ∧ (EventStore.unregisterUser ⟨[evBadCount], 2⟩ 1 7 "t").2.events =
      [{ evBadCount with registeredUsers := [],
                          registrations := 0,
                          updatedAt := "t" }]
  ∧ (0 : Int) ≠ evBadCount.registrations - 1 := by
  refine ⟨by decide, by decide, by decide⟩

/-- C3 (amended): `unregisterUser` fails (leaving the store untouched) when
the user id is not in the event's `registeredUsers` list, or when the event
is missing; when the user is registered it removes the id and sets the
counter to `max 0 (registrations - 1)` — a decrement by exactly one whenever
the counter was positive, and in every case a non-negative result. -/
theorem unregisterUser_fails_or_clamped_decrement :
    ∀ (s : EventStore) (eventId userId : Int) (now : String),
    (∀ ev, s.findById eventId = some ev →
      ¬ ev.registeredUsers.contains userId = true →
      (EventStore.unregisterUser s eventId userId now).1 = .error .notRegistered
      ∧ (EventStore.unregisterUser s eventId userId now).2 = s)
  ∧ (s.findById eventId = none →
      (EventStore.unregisterUser s eventId userId now).1 = .error .eventNotFound
      ∧ (EventStore.unregisterUser s eventId userId now).2 = s)
  ∧ (∀ ev, s.findById eventId = some ev →
      ev.registeredUsers.contains userId = true →
      (EventStore.unregisterUser s eventId userId now).1 = .ok ()
      ∧ (EventStore.unregisterUser s eventId userId now).2.findById eventId =
          some { ev with
                 registeredUsers := ev.registeredUsers.filter (fun x => x != userId),
                 registrations := max 0 (ev.registrations - 1),
                 updatedAt := now }
      ∧ (0 < ev.registrations →
          max 0 (ev.registrations - 1) = ev.registrations - 1)
      ∧ 0 ≤ max 0 (ev.registrations - 1)) := by
  intro s eventId userId now
  refine ⟨?_, ?_, ?_⟩
  · intro ev hf hnreg
    have hnmem : userId ∉ ev.registeredUsers := by simpa using hnreg
    constructor
    · simp [EventStore.unregisterUser, hf, hnmem]
    · simp [EventStore.unregisterUser, hf, hnmem]
  · intro hf
    constructor
    · simp [EventStore.unregisterUser, hf]
    · simp [EventStore.unregisterUser, hf]
  · intro ev hf hreg
    obtain ⟨l2, hl2, hstate⟩ := unregisterUser_ok_cases hf hreg
    refine ⟨by rw [hstate], ?_, ?_, ?_⟩
    · rw [hstate]
      exact find?_updateFirst rfl hl2
    · intro hpos
      omega
    · exact le_max_left 0 _

/-- C3 witness: unregistering a non-registered user fails and changes
nothing; unregistering a registered user succeeds with a non-negative
counter. -/
theorem unregisterUser_fails_or_clamped_decrement_witness :
    ((EventStore.unregisterUser ⟨[evOpen5], 2⟩ 1 99 "t").1 = .error .notRegistered
   ∧ (EventStore.unregisterUser ⟨[evOpen5], 2⟩ 1 99 "t").2 = ⟨[evOpen5], 2⟩)
  ∧ ((EventStore.unregisterUser ⟨[evOpen5], 2⟩ 1 4 "t").1 = .ok ()
   ∧ 0 ≤ max 0 (evOpen5.registrations - 1)) := by
  constructor
  · exact (unregisterUser_fails_or_clamped_decrement ⟨[evOpen5], 2⟩ 1 99
      "t").1 evOpen5 (by decide) (by decide)
  · obtain ⟨h1, h2, h3, h4⟩ := (unregisterUser_fails_or_clamped_decrement
      ⟨[evOpen5], 2⟩ 1 4 "t").2.2 evOpen5 (by decide) (by decide)
    exact ⟨h1, h4⟩

/-! C4: monotone id assignment within one store lifetime. -/

/-- The ids handed out by a sequence of `Event.create` calls on one store
instance, in call order. -/
def eventIdsAssigned (s : EventStore) (now : String) :
    List EventData → List Int
  | [] => []
  | d :: ds =>
    (EventStore.create s d now).1.id ::
      eventIdsAssigned (EventStore.create s d now).2 now ds

/-- The ids handed out by a sequence of `User.create` calls. -/
def userIdsAssigned (s : UserStore) (now : String) :
    List UserData → List Int
  | [] => []
  | d :: ds =>
    (UserStore.create s d now).1.id ::
      userIdsAssigned (UserStore.create s d now).2 now ds

theorem eventIdsAssigned_lower : ∀ (ds : List EventData) (s : EventStore)
    (now : String), ∀ x ∈ eventIdsAssigned s now ds, s.nextId ≤ x := by
  intro ds
  induction ds with
  | nil => intro s now x hx; simp [eventIdsAssigned] at hx
  | cons d ds ih =>
    intro s now x hx
    rcases List.mem_cons.1 hx with hx | hx
    · subst hx; simp [EventStore.create]
    · have := ih (EventStore.create s d now).2 now x hx
      have h2 : (EventStore.create s d now).2.nextId = s.nextId + 1 := by
        simp [EventStore.create]
      omega

theorem userIdsAssigned_lower : ∀ (ds : List UserData) (s : UserStore)
    (now : String), ∀ x ∈ userIdsAssigned s now ds, s.nextId ≤ x := by
  intro ds
  induction ds with
  | nil => intro s now x hx; simp [userIdsAssigned] at hx
  | cons d ds ih =>
    intro s now x hx
    rcases List.mem_cons.1 hx with hx | hx
    · subst hx; simp [UserStore.create]
    · have := ih (UserStore.create s d now).2 now x hx
      have h2 : (UserStore.create s d now).2.nextId = s.nextId + 1 := by
        simp [UserStore.create]
      omega

/-- C4: on a single store instance within one process lifetime, every id
assigned by a sequence of `create` calls is strictly greater than every
previously assigned id, hence all assigned ids are distinct — for the event
store and the user store alike. -/
theorem create_ids_strictly_increasing :
    ∀ (s : EventStore) (su : UserStore) (now : String)
      (ds : List EventData) (dsu : List UserData),
    (eventIdsAssigned s now ds).Pairwise (· < ·)
  ∧ (eventIdsAssigned s now ds).Nodup
  ∧ (userIdsAssigned su now dsu).Pairwise (· < ·)
  ∧ (userIdsAssigned su now dsu).Nodup := by
  intro s su now ds dsu
  have hev : ∀ (ds : List EventData) (s : EventStore),
      (eventIdsAssigned s now ds).Pairwise (· < ·) := by
    intro ds
    induction ds with
    | nil => intro s; simp [eventIdsAssigned]
    | cons d ds ih =>
      intro s
      refine List.Pairwise.cons ?_ (ih _)
      intro x hx
      have h1 := eventIdsAssigned_lower ds (EventStore.create s d now).2 now x hx
      have h2 : (EventStore.create s d now).2.nextId = s.nextId + 1 := by
        simp [EventStore.create]
      have h3 : (EventStore.create s d now).1.id = s.nextId := by
        simp [EventStore.create]
      omega
  have hus : ∀ (ds : List UserData) (s : UserStore),
      (userIdsAssigned s now ds).Pairwise (· < ·) := by
    intro ds
    induction ds with
    | nil => intro s; simp [userIdsAssigned]
    | cons d ds ih =>
      intro s
      refine List.Pairwise.cons ?_ (ih _)
      intro x hx
      have h1 := userIdsAssigned_lower ds (UserStore.create s d now).2 now x hx
      have h2 : (UserStore.create s d now).2.nextId = s.nextId + 1 := by
        simp [UserStore.create]
      have h3 : (UserStore.create s d now).1.id = s.nextId := by
        simp [UserStore.create]
      omega
  refine ⟨hev ds s, ?_, hus dsu su, ?_⟩
  · exact (hev ds s).imp (fun h => ne_of_lt h)
  · exact (hus dsu su).imp (fun h => ne_of_lt h)

/-! C5: save + reload round-trip. -/

/-- C5: writing the collection out and reloading it in a fresh store
(process restart) reproduces the identical collection; the reloaded store's
`nextId` is 1 on an empty collection and `m + 1` where `m` is the maximum
existing id otherwise, so the next assigned id is strictly greater than
every persisted id. -/
theorem save_load_roundtrip :
    ∀ s : EventStore,
    (loadEvents (saveEvents s)).events = s.events
  ∧ (s.events = [] → (loadEvents (saveEvents s)).nextId = 1)
  ∧ (∀ m : Int, m ∈ s.events.map (fun e => e.id) →
      (∀ x ∈ s.events.map (fun e => e.id), x ≤ m) →
      (loadEvents (saveEvents s)).nextId = m + 1)
  ∧ (∀ e ∈ (loadEvents (saveEvents s)).events,
      e.id < (loadEvents (saveEvents s)).nextId) := by
  intro s
  refine ⟨rfl, ?_, ?_, ?_⟩
  · intro h
    simp [loadEvents, saveEvents, h]
  · intro m hm hub
    cases hids : s.events.map (fun e => e.id) with
    | nil => rw [hids] at hm; cases hm
    | cons x xs =>
      have h1 : (loadEvents (saveEvents s)).nextId = jsMax x xs + 1 := by
        simp [loadEvents, saveEvents, hids]
      rw [hids] at hm hub
      have h2 : jsMax x xs ≤ m := hub _ (jsMax_mem xs x)
      have h3 : m ≤ jsMax x xs := le_jsMax xs x m hm
      omega
  · intro e he
    have he2 : e.id ∈ s.events.map (fun e => e.id) :=
      List.mem_map_of_mem _ he
    cases hids : s.events.map (fun e => e.id) with
    | nil => rw [hids] at he2; cases he2
    | cons x xs =>
      have h1 : (loadEvents (saveEvents s)).nextId = jsMax x xs + 1 := by
        simp [loadEvents, saveEvents, hids]
      rw [hids] at he2
      have := le_jsMax xs x e.id he2
      omega

/-- C5 witness: a two-event collection with max id 3 reloads identically and
resumes at 4; the empty collection resumes at 1. -/
theorem save_load_roundtrip_witness :
    (loadEvents (saveEvents ⟨[{ evOpen5 with id := 3 }, evCap1], 9⟩)).events
      = [{ evOpen5 with id := 3 }, evCap1]
  ∧ (loadEvents (saveEvents ⟨[{ evOpen5 with id := 3 }, evCap1], 9⟩)).nextId
      = 3 + 1
  ∧ (loadEvents (saveEvents (⟨[], 9⟩ : EventStore))).nextId = 1 := by
  refine ⟨(save_load_roundtrip ⟨[{ evOpen5 with id := 3 }, evCap1], 9⟩).1,
    (save_load_roundtrip ⟨[{ evOpen5 with id := 3 }, evCap1], 9⟩).2.2.1 3
      (by decide) (by decide),
    (save_load_roundtrip (⟨[], 9⟩ : EventStore)).2.1 rfl⟩

/-! C8: validatePassword never throws. -/

/-- C8: `validatePassword` is a total boolean function: it returns `false`
when the user id is absent and `false` when the hash comparison rejects, and
otherwise returns exactly the comparison's boolean result. -/
theorem validatePassword_false_on_failure :
    ∀ (bc : String → String → Except String Bool) (s : UserStore)
      (userId : Int) (pw : String),
    (s.findById userId = none →
      UserStore.validatePassword bc s userId pw = false)
  ∧ (∀ u, s.findById userId = some u →
      (∀ msg, bc pw u.password = .error msg →
        UserStore.validatePassword bc s userId pw = false)
      ∧ (∀ b, bc pw u.password = .ok b →
        UserStore.validatePassword bc s userId pw = b)) := by
  intro bc s userId pw
  constructor
  · intro h
    simp [UserStore.validatePassword, h]
  · intro u hf
    constructor
    · intro msg hbc
      simp [UserStore.validatePassword, hf, hbc]
    · intro b hbc
      simp [UserStore.validatePassword, hf, hbc]

def wUser : User :=
  { id := 1, name := "Ada", email := "ada@example.com", password := "h1",
    registeredEvents := [5], createdAt := "c", updatedAt := "c" }

/-- C8 witness: a missing user and a rejecting comparison both yield
`false`; a resolving comparison's boolean is returned as is. -/
theorem validatePassword_false_on_failure_witness :
    UserStore.validatePassword (fun _ _ => .error "fail") ⟨[wUser], 2⟩ 9 "x"
      = false
  ∧ UserStore.validatePassword (fun _ _ => .error "fail") ⟨[wUser], 2⟩ 1 "x"
      = false
  ∧ UserStore.validatePassword (fun p h => .ok (p == h)) ⟨[wUser], 2⟩ 1 "h1"
      = true := by
  refine ⟨(validatePassword_false_on_failure (fun _ _ => .error "fail")
      ⟨[wUser], 2⟩ 9 "x").1 (by decide),
    ((validatePassword_false_on_failure (fun _ _ => .error "fail")
      ⟨[wUser], 2⟩ 1 "x").2 wUser (by decide)).1 "fail" rfl,
    ((validatePassword_false_on_failure (fun p h => .ok (p == h))
      ⟨[wUser], 2⟩ 1 "h1").2 wUser (by decide)).2 true (by decide)⟩

/-! C9: addRegisteredEvent is idempotent. -/

/-- C9: for an existing user, `addRegisteredEvent` with an already-present
event id is a no-op returning success and leaving the whole store (hence the
user record) unchanged; and two successive identical calls end in exactly
the state the first call produced. -/
theorem addRegisteredEvent_idempotent :
    ∀ (s : UserStore) (userId eventId : Int) (now1 now2 : String) (u : User),
    s.findById userId = some u →
    (u.registeredEvents.contains eventId = true →
      UserStore.addRegisteredEvent s userId eventId now1 = (.ok (), s))
  ∧ (∀ r1 s1, UserStore.addRegisteredEvent s userId eventId now1 = (r1, s1) →
      r1 = .ok ()
      ∧ UserStore.addRegisteredEvent s1 userId eventId now2 = (.ok (), s1)) := by
  intro s userId eventId now1 now2 u hf
  have hfq : s.users.find? (fun x => x.id == userId) = some u := hf
  constructor
  · intro hc
    have hmem : eventId ∈ u.registeredEvents := by simpa using hc
    simp [UserStore.addRegisteredEvent, hf, hmem]
  · intro r1 s1 heq
    by_cases hc : u.registeredEvents.contains eventId = true
    · have hmem : eventId ∈ u.registeredEvents := by simpa using hc
      have h1 : UserStore.addRegisteredEvent s userId eventId now1
          = (.ok (), s) := by
        simp [UserStore.addRegisteredEvent, hf, hmem]
      rw [h1] at heq
      cases heq
      refine ⟨rfl, ?_⟩
      simp [UserStore.addRegisteredEvent, hf, hmem]
    · have hnmem : eventId ∉ u.registeredEvents := by simpa using hc
      obtain ⟨l2, hl2⟩ := updateUserFirst_of_find?
        (p := { registeredEvents := some (u.registeredEvents ++ [eventId]) })
        now1 hfq
      have hfind := find?_updateUserFirst rfl hl2
      have h1 : UserStore.addRegisteredEvent s userId eventId now1
          = (.ok (), { s with users := l2 }) := by
        simp [UserStore.addRegisteredEvent, UserStore.update, hf, hnmem, hl2]
      rw [h1] at heq
      cases heq
      refine ⟨rfl, ?_⟩
      have hf1 : UserStore.findById { s with users := l2 } userId =
          some { u with registeredEvents := u.registeredEvents ++ [eventId],
                        updatedAt := now1 } := hfind
      have hmem2 : eventId ∈
          ({ u with registeredEvents := u.registeredEvents ++ [eventId],
                    updatedAt := now1 } : User).registeredEvents := by simp
      simp [UserStore.addRegisteredEvent, hf1, hmem2]

/-- C9 witness: adding an already-present event id is a no-op, and two
successive adds of a fresh id equal one add. -/
theorem addRegisteredEvent_idempotent_witness :
    UserStore.addRegisteredEvent ⟨[wUser], 2⟩ 1 5 "t1" = (.ok (), ⟨[wUser], 2⟩)
  ∧ UserStore.addRegisteredEvent
      (UserStore.addRegisteredEvent ⟨[wUser], 2⟩ 1 6 "t1").2 1 6 "t2"
      = (.ok (), (UserStore.addRegisteredEvent ⟨[wUser], 2⟩ 1 6 "t1").2) := by
  constructor
  · exact ((addRegisteredEvent_idempotent ⟨[wUser], 2⟩ 1 5 "t1" "t2" wUser
      (by decide)).1 (by decide))
  · exact ((addRegisteredEvent_idempotent ⟨[wUser], 2⟩ 1 6 "t1" "t2" wUser
      (by decide)).2 (UserStore.addRegisteredEvent ⟨[wUser], 2⟩ 1 6 "t1").1
      (UserStore.addRegisteredEvent ⟨[wUser], 2⟩ 1 6 "t1").2 rfl).2

/-! C7: search. -/

def evMusic : Event :=
  { id := 1, title := "Summer Nights", category := "Festival",
    date := "2030-08-01", time := "19:00", location := "Riverside Park",
    description := "Annual Music Festival with local bands",
    capacity := 500, price := 20, organizerId := 9, organizerName := "Org",
    registrations := 0, registeredUsers := [],
    createdAt := "c", updatedAt := "c" }

/-- C7: `search(term)` returns exactly the stored events for which the
lowercased term is a substring of the lowercased title, description,
location or category; in particular `search("music")` matches an event
whose description contains "Music Festival". -/
theorem search_returns_exactly_matches :
    (∀ (s : EventStore) (q : String) (e : Event),
      e ∈ EventStore.search s q ↔ e ∈ s.events ∧ specSearchHit e q = true)
  ∧ evMusic ∈ EventStore.search ⟨[evMusic], 2⟩ "music" := by
  constructor
  · intro s q e
    simp [EventStore.search, specSearchHit, List.mem_filter]
  · decide

/-! C6: findAll. -/

def ev2020 : Event :=
  { id := 2, title := "Past Event", category := "General",
    date := "2020-01-01", time := "10:00", location := "Hall D",
    description := "Old event", capacity := 50, price := 0,
    organizerId := 9, organizerName := "Org", registrations := 0,
    registeredUsers := [], createdAt := "c", updatedAt := "c" }

def ev2099 : Event :=
  { id := 1, title := "Future Event", category := "General",
    date := "2099-01-01", time := "10:00", location := "Hall E",
    description := "Far future event", capacity := 50, price := 0,
    organizerId := 9, organizerName := "Org", registrations := 0,
    registeredUsers := [], createdAt := "c", updatedAt := "c" }

/-- C6: when every stored event has a parseable date+time, `findAll` returns
all events (a permutation of the collection) in ascending start-instant
order, each annotated with `isUpcoming ↔ now < start`; and on the concrete
pair {2099-01-01 10:00} and {2020-01-01 10:00}, with the wall clock between
the two instants, the 2020 event comes first with `isUpcoming = false` and
the 2099 event is flagged `isUpcoming = true`. -/
theorem findAll_sorted_and_annotated :
    (∀ (s : EventStore) (now : Nat),
      (∀ e ∈ s.events, (evKey e).isSome) →
      ((EventStore.findAll s now).map Prod.fst).Perm s.events
      ∧ ((EventStore.findAll s now).map Prod.fst).Pairwise keyLe
      ∧ (∀ p ∈ EventStore.findAll s now, ∀ k, evKey p.1 = some k →
          (p.2 = true ↔ now < k)))
  ∧ (∀ now : Nat, 202001011000 ≤ now → now < 209901011000 →
      EventStore.findAll ⟨[ev2099, ev2020], 3⟩ now
        = [(ev2020, false), (ev2099, true)]) := by
  constructor
  · intro s now h
    have hmapfst : (EventStore.findAll s now).map Prod.fst
        = sortEvents jsDateLe s.events := by
      unfold EventStore.findAll
      rw [List.map_map]
      have : (Prod.fst ∘ fun e : Event =>
          (e, match evKey e with
              | some k => decide (now < k)
              | none => false)) = id := by
        funext e
        rfl
      rw [this, List.map_id]
    refine ⟨?_, ?_, ?_⟩
    · rw [hmapfst]
      exact sortEvents_perm s.events
    · rw [hmapfst]
      exact pairwise_sortEvents h
    · intro p hp k hk
      unfold EventStore.findAll at hp
      rcases List.mem_map.1 hp with ⟨e, he, hpe⟩
      subst hpe
      simp only at hk
      rw [hk]
      simp
  · intro now h1 h2
    have hsort : sortEvents jsDateLe [ev2099, ev2020] = [ev2020, ev2099] := by
      decide
    have hk20 : evKey ev2020 = some 202001011000 := by decide
    have hk99 : evKey ev2099 = some 209901011000 := by decide
    have hb20 : decide (now < 202001011000) = false := by
      simp only [decide_eq_false_iff_not]
      omega
    have hb99 : decide (now < 209901011000) = true := by
      simp only [decide_eq_true_eq]
      omega
    unfold EventStore.findAll
    rw [show (⟨[ev2099, ev2020], 3⟩ : EventStore).events
        = [ev2099, ev2020] from rfl, hsort]
    simp only [List.map_cons, List.map_nil, hk20, hk99, hb20, hb99]

/-- C6 witness: the concrete two-event store at a wall-clock instant between
the two start instants. -/
theorem findAll_sorted_and_annotated_witness :
    ((EventStore.findAll ⟨[ev2099, ev2020], 3⟩ 202001011000).map
        Prod.fst).Perm [ev2099, ev2020]
  ∧ EventStore.findAll ⟨[ev2099, ev2020], 3⟩ 202001011000
      = [(ev2020, false), (ev2099, true)] := by
  exact ⟨(findAll_sorted_and_annotated.1 ⟨[ev2099, ev2020], 3⟩ 202001011000
      (by decide)).1,
    findAll_sorted_and_annotated.2 202001011000 (by decide) (by decide)⟩
